import Mathlib

/-
Shallow embedding of the voting server in `src/server.js`.

The server keeps one mutable slot `currentSession` (a session object or
null), arms one `setTimeout` timer per session, and publishes MQTT events.
JavaScript objects used as string-keyed dictionaries (the tally) and the
`Map` used for the vote ledger are both modelled as association lists in
insertion order with update-in-place-or-append assignment, which is the
observable semantics of JS object/Map key assignment.  Timers are modelled
by a set (list) of armed timer handles held in the server state, with
`setTimeout` allocating a fresh handle and `clearTimeout` removing it.
`Date.now()` is modelled as an explicit `now : Nat` input to the start
operation; a JS finite number for `durationSeconds` is modelled as `Int`
(non-finite results of `Number(...)` are modelled as `none`).
-/

set_option autoImplicit false

namespace Voting

/-- Assignment `obj[k] = v` on a JS object (or `Map.set`): update the first
entry with key `k` in place, otherwise append at the end. -/
def setK {β : Type} : List (String × β) → String → β → List (String × β)
  | [], k, v => [(k, v)]
  | (k0, v0) :: rest, k, v =>
    if k0 = k then (k0, v) :: rest else (k0, v0) :: setK rest k v

/-- Lookup `obj[k]` on a JS object (or `Map.get`): first entry with key `k`. -/
def getK {β : Type} : List (String × β) → String → Option β
  | [], _ => none
  | (k0, v0) :: rest, k => if k0 = k then some v0 else getK rest k

/-- Test `Map.has(k)` / `k in obj`. -/
def hasK {β : Type} : List (String × β) → String → Bool
  | [], _ => false
  | (k0, _) :: rest, k => k0 == k || hasK rest k

/-- Keys of an association list, in order. -/
def keysOf {β : Type} (t : List (String × β)) : List String := t.map (fun p => p.1)

/-- Decimal digits of `n`, least significant first, by repeated division
(structural recursion on a fuel argument so that it evaluates by kernel
reduction). -/
def digitsAux : Nat → Nat → List Nat
  | 0, _ => []
  | _ + 1, 0 => []
  | fuel + 1, n + 1 => (n + 1) % 10 :: digitsAux fuel ((n + 1) / 10)

/-- Decimal digits of `n`, least significant first. -/
def digits10 (n : Nat) : List Nat := digitsAux n n

/-- Character for a single decimal digit. -/
def digitChar (d : Nat) : Char :=
  match d with
  | 0 => '0' | 1 => '1' | 2 => '2' | 3 => '3' | 4 => '4'
  | 5 => '5' | 6 => '6' | 7 => '7' | 8 => '8' | _ => '9'

/-- Decimal rendering of a natural number, as JS `String(n)` produces for
the integral values returned by `Date.now()`. -/
def natRepr (n : Nat) : String :=
  if n = 0 then "0" else String.mk (((digits10 n).reverse).map digitChar)

/-- Session id `'sess_' + Date.now()` from `src/server.js`. -/
def sessionIdOf (now : Nat) : String := "sess_" ++ natRepr now

/-- The tally: JS object mapping option label to count. -/
abbrev Tally := List (String × Nat)

/-- The vote ledger: JS `Map` from device id to chosen option. -/
abbrev Votes := List (String × String)

/-- Function `newTally(options)` from `src/server.js`: a fresh object with
each option assigned 0, via `options.forEach((o) => { t[o] = 0; })`. -/
def newTally (options : List String) : Tally :=
  options.foldl (fun t o => setK t o 0) []

/-- The `currentSession` object from `src/server.js`:
`{ id, options, endAt, active, votes, tally, timer }`. -/
structure Session where
  id : String
  options : List String
  endAt : Int
  active : Bool
  votes : Votes
  tally : Tally
  timer : Option Nat
  deriving Repr, DecidableEq

/-- Process-wide state: the `currentSession` slot plus the timer machinery
(`setTimeout` handles still armed, and a fresh-handle counter). -/
structure ServerState where
  currentSession : Option Session
  armedTimers : List Nat
  nextTimer : Nat
  deriving Repr, DecidableEq

/-- The state of the process at startup: `let currentSession = null`. -/
def initState : ServerState :=
  { currentSession := none, armedTimers := [], nextTimer := 0 }

/-- One published MQTT message: topic `voting/session` carries the
`started` and `ended` lifecycle payloads, topic `voting/tally` carries
`{ sessionId, tally, totalVotes }`. -/
inductive Event where
  | started (sessionId : String) (options : List String) (endAt : Int)
  | ended (sessionId : String) (reason : String) (tally : Tally)
  | tallyUpdated (sessionId : String) (tally : Tally) (totalVotes : Nat)
  deriving Repr, DecidableEq

/-- Function `endSession(reason)` from `src/server.js`: no-op when
`currentSession` is null; otherwise clear the pending timer if any, set
`active = false`, and publish the `ended` event with the session id,
reason and tally.  There is no check of the `active` flag. -/
def endSession (st : ServerState) (reason : String) : ServerState × List Event :=
  match st.currentSession with
  | none => (st, [])
  | some s =>
    let armed := match s.timer with
      | some h => st.armedTimers.erase h
      | none => st.armedTimers
    let s1 : Session := { s with active := false, timer := none }
    ({ st with currentSession := some s1, armedTimers := armed },
     [Event.ended s.id reason s.tally])

/-- Body `{ durationSeconds, options }` of a POST `/api/start` request.
`options = none` models a body whose `options` is not an array;
`durationSeconds = none` models `Number(durationSeconds)` not being a
finite number. -/
structure StartRequest where
  options : Option (List String)
  durationSeconds : Option Int
  deriving Repr, DecidableEq

/-- Response of POST `/api/start`: a 400 with an error string, or the 200
body `{ ok: true, sessionId, endAt, options }`. -/
inductive StartResult where
  | badRequest (error : String)
  | ok (sessionId : String) (endAt : Int) (options : List String)
  deriving Repr, DecidableEq

/-- Handler of POST `/api/start` from `src/server.js`: validate the
options array and the duration, build the fresh session (fresh id from
`Date.now()`, zeroed tally, empty vote map, `active: true`, armed timer),
publish the `started` event, and answer `{ ok, sessionId, endAt, options }`. -/
def startSession (st : ServerState) (now : Nat) (req : StartRequest) :
    ServerState × List Event × StartResult :=
  match req.options with
  | none => (st, [], StartResult.badRequest "options must be an array with at least 2 entries")
  | some opts =>
    if opts.length < 2 then
      (st, [], StartResult.badRequest "options must be an array with at least 2 entries")
    else
      match req.durationSeconds with
      | none => (st, [], StartResult.badRequest "durationSeconds must be a positive number")
      | some dur =>
        if dur ≤ 0 then
          (st, [], StartResult.badRequest "durationSeconds must be a positive number")
        else
          let id := sessionIdOf now
          let endAt : Int := (now : Int) + dur * 1000
          let h := st.nextTimer
          let s : Session :=
            { id := id, options := opts, endAt := endAt, active := true,
              votes := [], tally := newTally opts, timer := some h }
          ({ currentSession := some s,
             armedTimers := st.armedTimers ++ [h],
             nextTimer := h + 1 },
           [Event.started id opts endAt],
           StartResult.ok id endAt opts)

/-- Response of GET `/api/status`: `{ active: false }` when no session,
else `{ sessionId, options, endAt, active, tally }`. -/
inductive StatusResult where
  | inactive
  | info (sessionId : String) (options : List String) (endAt : Int)
      (active : Bool) (tally : Tally)
  deriving Repr, DecidableEq

/-- Handler of GET `/api/status` from `src/server.js`: pure read of the
current session slot. -/
def getStatus (st : ServerState) : StatusResult :=
  match st.currentSession with
  | none => StatusResult.inactive
  | some s => StatusResult.info s.id s.options s.endAt s.active s.tally

/-- Parsed fields `{ sessionId, deviceId, choice }` of a vote message.
Each field is `none` when it is missing from the JSON object or is not a
string (a non-string value never passes the strict comparison with the
session id, never has `typeof == 'string'`, and is never found by
`options.includes` in a list of strings). -/
structure VoteMsg where
  sessionId : Option String
  deviceId : Option String
  choice : Option String
  deriving Repr, DecidableEq

/-- A message delivered on the `voting/vote` channel: either its payload
fails `JSON.parse` (malformed), or it parses to a value whose destructuring
yields the three fields (a null or non-object parse result destructures as
`data || {}`, so all fields come out `none`). -/
inductive Packet where
  | malformed
  | msg (m : VoteMsg)
  deriving Repr, DecidableEq

/-- Subscribe handler for topic `voting/vote` from `src/server.js`.  The
returned `Nat` counts how many times the completion callback `cb` runs:
each guard path does `return cb()` inside the `try` and the `finally`
block runs `cb()` once more, so a guard-rejected message acknowledges
twice, while a malformed payload (caught) and the fall-through paths
(admitted vote, duplicate device) acknowledge once. -/
def handleVote (st : ServerState) (p : Packet) : ServerState × List Event × Nat :=
  match p with
  | Packet.malformed => (st, [], 1)
  | Packet.msg m =>
    match st.currentSession with
    | none => (st, [], 2)
    | some s =>
      if s.active = false then (st, [], 2)
      else if m.sessionId ≠ some s.id then (st, [], 2)
      else
        match m.deviceId with
        | none => (st, [], 2)
        | some d =>
          if d = "" then (st, [], 2)
          else
            match m.choice with
            | none => (st, [], 2)
            | some c =>
              if c ∉ s.options then (st, [], 2)
              else if hasK s.votes d then (st, [], 1)
              else
                let votes1 := setK s.votes d c
                let tally1 := setK s.tally c ((getK s.tally c).getD 0 + 1)
                let s1 : Session := { s with votes := votes1, tally := tally1 }
                ({ st with currentSession := some s1 },
                 [Event.tallyUpdated s.id tally1 votes1.length], 1)

/-- One externally triggered operation on the server state: an HTTP start
request (with the `Date.now()` value it observes), a delivered vote
message, or a call to `endSession` (manual close, shutdown, or the timer
callback firing with reason `time_up`). -/
inductive Op where
  | start (now : Nat) (req : StartRequest)
  | vote (p : Packet)
  | endS (reason : String)
  deriving Repr, DecidableEq

/-- Apply one operation, keeping the published events. -/
def applyOp (st : ServerState) : Op → ServerState × List Event
  | Op.start now req =>
    let r := startSession st now req
    (r.1, r.2.1)
  | Op.vote p =>
    let r := handleVote st p
    (r.1, r.2.1)
  | Op.endS reason => endSession st reason

/-- Run a sequence of operations from a state, concatenating the events
in the order they are published. -/
def run (st : ServerState) : List Op → ServerState × List Event
  | [] => (st, [])
  | op :: ops =>
    let r := applyOp st op
    let r2 := run r.1 ops
    (r2.1, r.2 ++ r2.2)

/-- Value of a little-endian decimal digit list. -/
def undigits : List Nat → Nat
  | [] => 0
  | d :: ds => d + 10 * undigits ds

/-- Sum of all counts recorded in a tally object. -/
def tallySum (t : Tally) : Nat := (t.map (fun p => p.2)).sum

/-- Number of ledger entries whose recorded choice is `o`. -/
def countChoice (votes : Votes) (o : String) : Nat :=
  (votes.filter (fun v => v.2 == o)).length

/-- Recognizer for `ended` lifecycle events. -/
def isEnded : Event → Bool
  | Event.ended _ _ _ => true
  | _ => false

/-- The `Date.now()` values observed by the start operations of a run, in
order. -/
def startTimes (ops : List Op) : List Nat :=
  ops.filterMap (fun op => match op with
    | Op.start now _ => some now
    | _ => none)

/-- Event-trace check: given the session ids for which an `ended` event
has already been seen, no later `tallyUpdated` event may carry one of
those ids; each `ended` event adds its id to the seen set. -/
def okEvents : List String → List Event → Bool
  | _, [] => true
  | burnt, Event.tallyUpdated sid _ _ :: rest =>
    !burnt.contains sid && okEvents burnt rest
  | burnt, Event.ended sid _ _ :: rest => okEvents (sid :: burnt) rest
  | burnt, Event.started _ _ _ :: rest => okEvents burnt rest

/-- Session ids with an `ended` event in the given list, added to an
initial set. -/
def burntAfter (burnt : List String) : List Event → List String
  | [] => burnt
  | Event.ended sid _ _ :: rest => burntAfter (sid :: burnt) rest
  | _ :: rest => burntAfter burnt rest

/-- Consistency of a session's tally with its vote ledger: the tally keys
are duplicate-free, every option's count equals the number of ledger
entries for it, and the counts sum to the ledger size. -/
def SessInv (s : Session) : Prop :=
  (keysOf s.tally).Nodup ∧
  (∀ o, (getK s.tally o).getD 0 = countChoice s.votes o) ∧
  tallySum s.tally = s.votes.length

/-- The silent-rejection conditions of the vote handler named by the spec:
no current session, inactive session, session-id mismatch, missing or
non-string device id, or a choice that is not one of the session options. -/
def VoteReject (st : ServerState) (m : VoteMsg) : Prop :=
  st.currentSession = none ∨
  ∃ s, st.currentSession = some s ∧
    (s.active = false ∨ m.sessionId ≠ some s.id ∨ m.deviceId = none ∨
      ∀ c, m.choice = some c → c ∉ s.options)

/-- Concrete session used to instantiate theorems that carry hypotheses. -/
def sampleSession : Session :=
  { id := "sess_5", options := ["A", "B"], endAt := 1005, active := true,
    votes := [], tally := [("A", 0), ("B", 0)], timer := some 0 }

/-- Server state holding `sampleSession` with its timer armed. -/
def sampleState : ServerState :=
  { currentSession := some sampleSession, armedTimers := [0], nextTimer := 1 }

/-- Concrete session that has already recorded a vote from `dev1`. -/
def sampleVotedSession : Session :=
  { id := "sess_5", options := ["A", "B"], endAt := 1005, active := true,
    votes := [("dev1", "A")], tally := [("A", 1), ("B", 0)], timer := some 0 }

/-- Server state holding `sampleVotedSession`. -/
def sampleVotedState : ServerState :=
  { currentSession := some sampleVotedSession, armedTimers := [0], nextTimer := 1 }

theorem getK_setK_self {β : Type} (t : List (String × β)) (k : String) (v : β) :
    getK (setK t k v) k = some v := by
  induction t with
  | nil => simp [setK, getK]
  | cons p rest ih =>
    obtain ⟨k0, v0⟩ := p
    by_cases h : k0 = k
    · simp [setK, getK, h]
    · simp [setK, getK, h, ih]

theorem getK_setK_ne {β : Type} (t : List (String × β)) (k k1 : String) (v : β)
    (h : k1 ≠ k) : getK (setK t k v) k1 = getK t k1 := by
  induction t with
  | nil => simp [setK, getK, Ne.symm h]
  | cons p rest ih =>
    obtain ⟨k0, v0⟩ := p
    by_cases hk : k0 = k
    · subst hk
      simp [setK, getK, Ne.symm h]
    · simp [setK, getK, hk, ih]

theorem hasK_iff_mem {β : Type} (t : List (String × β)) (k : String) :
    hasK t k = true ↔ k ∈ keysOf t := by
  induction t with
  | nil => simp [hasK, keysOf]
  | cons p rest ih =>
    obtain ⟨k0, v0⟩ := p
    simp [hasK, keysOf] at ih ⊢
    rw [ih]
    constructor
    · rintro (h | h)
      · exact Or.inl h.symm
      · exact Or.inr h
    · rintro (h | h)
      · exact Or.inl h.symm
      · exact Or.inr h

theorem keysOf_cons {β : Type} (k0 : String) (v0 : β) (rest : List (String × β)) :
    keysOf ((k0, v0) :: rest) = k0 :: keysOf rest := rfl

theorem setK_eq_append {β : Type} (t : List (String × β)) (k : String) (v : β)
    (h : hasK t k = false) : setK t k v = t ++ [(k, v)] := by
  induction t with
  | nil => simp [setK]
  | cons p rest ih =>
    obtain ⟨k0, v0⟩ := p
    simp [hasK] at h
    simp [setK, h.1, ih h.2]

theorem keysOf_setK {β : Type} (t : List (String × β)) (k : String) (v : β) :
    keysOf (setK t k v) = if hasK t k then keysOf t else keysOf t ++ [k] := by
  induction t with
  | nil => simp [setK, hasK, keysOf]
  | cons p rest ih =>
    obtain ⟨k0, v0⟩ := p
    by_cases hk : k0 = k
    · simp [setK, hasK, hk, keysOf_cons]
    · simp [setK, hasK, hk, keysOf_cons, ih]
      split <;> simp

theorem nodup_keysOf_setK {β : Type} (t : List (String × β)) (k : String) (v : β)
    (h : (keysOf t).Nodup) : (keysOf (setK t k v)).Nodup := by
  rw [keysOf_setK]
  split
  · exact h
  · next hh =>
    have hnm : k ∉ keysOf t := by
      intro hmem
      rw [← hasK_iff_mem] at hmem
      simp [hh] at hmem
    simp [List.nodup_append, h, hnm]

theorem mem_setK {β : Type} (t : List (String × β)) (k : String) (v : β)
    (p : String × β) (hp : p ∈ setK t k v) : p ∈ t ∨ p.2 = v := by
  induction t with
  | nil =>
    simp [setK] at hp
    subst hp
    exact Or.inr rfl
  | cons q rest ih =>
    obtain ⟨k0, v0⟩ := q
    by_cases hk : k0 = k
    · simp [setK, hk] at hp
      rcases hp with hp | hp
      · subst hp
        exact Or.inr rfl
      · exact Or.inl (List.mem_cons_of_mem _ hp)
    · simp [setK, hk] at hp
      rcases hp with hp | hp
      · subst hp
        exact Or.inl (List.mem_cons_self _ _)
      · rcases ih hp with h1 | h2
        · exact Or.inl (List.mem_cons_of_mem _ h1)
        · exact Or.inr h2

theorem hasK_append {β : Type} (t1 t2 : List (String × β)) (k : String) :
    hasK (t1 ++ t2) k = (hasK t1 k || hasK t2 k) := by
  induction t1 with
  | nil => simp [hasK]
  | cons p rest ih =>
    obtain ⟨k0, v0⟩ := p
    simp [hasK, ih, Bool.or_assoc]

theorem tallySum_setK_incr (t : Tally) (k : String) (h : (keysOf t).Nodup) :
    tallySum (setK t k ((getK t k).getD 0 + 1)) = tallySum t + 1 := by
  induction t with
  | nil => simp [setK, getK, tallySum]
  | cons p rest ih =>
    obtain ⟨k0, v0⟩ := p
    simp [keysOf, List.nodup_cons] at h
    by_cases hk : k0 = k
    · subst hk
      simp [setK, getK, tallySum]
      omega
    · simp [setK, getK, hk, tallySum] at ih ⊢
      rw [ih h.2]
      omega

theorem tallySum_eq_zero (t : Tally) (h : ∀ p ∈ t, p.2 = 0) : tallySum t = 0 := by
  unfold tallySum
  apply List.sum_eq_zero
  intro x hx
  rw [List.mem_map] at hx
  obtain ⟨p, hp, hx⟩ := hx
  rw [← hx]
  exact h p hp

theorem countChoice_append_single (votes : Votes) (d c o : String) :
    countChoice (votes ++ [(d, c)]) o
      = countChoice votes o + (if c = o then 1 else 0) := by
  simp [countChoice, List.filter_append]
  by_cases h : c = o <;> simp [h]

theorem getK_foldl_zero (opts : List String) :
    ∀ (t0 : Tally) (o : String),
      getK (opts.foldl (fun t o2 => setK t o2 0) t0) o
        = if o ∈ opts then some 0 else getK t0 o := by
  induction opts with
  | nil => intro t0 o; simp
  | cons o0 rest ih =>
    intro t0 o
    rw [List.foldl_cons, ih]
    by_cases ho : o ∈ rest
    · simp [ho]
    · by_cases ho0 : o = o0
      · subst ho0
        simp [ho, getK_setK_self]
      · simp [ho, ho0, getK_setK_ne _ _ _ _ ho0]

theorem getK_newTally (opts : List String) (o : String) :
    getK (newTally opts) o = if o ∈ opts then some 0 else none := by
  unfold newTally
  rw [getK_foldl_zero]
  rfl

theorem nodup_keysOf_foldl (opts : List String) :
    ∀ t0 : Tally, (keysOf t0).Nodup →
      (keysOf (opts.foldl (fun t o => setK t o 0) t0)).Nodup := by
  induction opts with
  | nil => intro t0 h; simpa using h
  | cons o0 rest ih =>
    intro t0 h
    rw [List.foldl_cons]
    exact ih _ (nodup_keysOf_setK _ _ _ h)

theorem nodup_keysOf_newTally (opts : List String) :
    (keysOf (newTally opts)).Nodup := by
  unfold newTally
  exact nodup_keysOf_foldl opts [] (by simp [keysOf])

theorem valZero_foldl (opts : List String) :
    ∀ t0 : Tally, (∀ p ∈ t0, p.2 = 0) →
      ∀ p ∈ opts.foldl (fun t o => setK t o 0) t0, p.2 = 0 := by
  induction opts with
  | nil => intro t0 h; simpa using h
  | cons o0 rest ih =>
    intro t0 h
    rw [List.foldl_cons]
    refine ih _ ?_
    intro p hp
    rcases mem_setK _ _ _ _ hp with h1 | h2
    · exact h p h1
    · exact h2

theorem tallySum_newTally (opts : List String) : tallySum (newTally opts) = 0 := by
  apply tallySum_eq_zero
  unfold newTally
  exact valZero_foldl opts [] (by simp)

theorem foldl_setK_zero_eq (opts : List String) :
    ∀ t0 : Tally, opts.Nodup → (∀ o ∈ opts, hasK t0 o = false) →
      opts.foldl (fun t o => setK t o 0) t0 = t0 ++ opts.map (fun o => (o, 0)) := by
  induction opts with
  | nil => intro t0 _ _; simp
  | cons o0 rest ih =>
    intro t0 hnd hh
    rw [List.foldl_cons, setK_eq_append _ _ _ (hh o0 (by simp))]
    rw [List.nodup_cons] at hnd
    rw [ih _ hnd.2 ?_]
    · simp
    · intro o ho
      rw [hasK_append]
      have h1 : hasK t0 o = false := hh o (by simp [ho])
      have h2 : hasK [(o0, (0 : Nat))] o = false := by
        have : o ≠ o0 := fun he => hnd.1 (he ▸ ho)
        simp [hasK, Ne.symm this]
      simp [h1, h2]

theorem newTally_of_nodup (opts : List String) (h : opts.Nodup) :
    newTally opts = opts.map (fun o => (o, 0)) := by
  unfold newTally
  rw [foldl_setK_zero_eq opts [] h (by intro o _; rfl)]
  simp

theorem undigits_digitsAux (fuel : Nat) :
    ∀ n : Nat, n ≤ fuel → undigits (digitsAux fuel n) = n := by
  induction fuel with
  | zero =>
    intro n hn
    interval_cases n
    simp [digitsAux, undigits]
  | succ fuel ih =>
    intro n hn
    match n with
    | 0 => simp [digitsAux, undigits]
    | m + 1 =>
      have hdiv : (m + 1) / 10 ≤ fuel := by
        have h1 : (m + 1) / 10 < m + 1 := Nat.div_lt_self (Nat.succ_pos m) (by omega)
        omega
      simp only [digitsAux, undigits]
      rw [ih _ hdiv]
      omega

theorem undigits_digits10 (n : Nat) : undigits (digits10 n) = n :=
  undigits_digitsAux n n le_rfl

theorem digitsAux_lt (fuel : Nat) :
    ∀ n d : Nat, d ∈ digitsAux fuel n → d < 10 := by
  induction fuel with
  | zero => intro n d hd; simp [digitsAux] at hd
  | succ fuel ih =>
    intro n d hd
    match n with
    | 0 => simp [digitsAux] at hd
    | m + 1 =>
      simp only [digitsAux, List.mem_cons] at hd
      rcases hd with hd | hd
      · subst hd
        exact Nat.mod_lt _ (by omega)
      · exact ih _ _ hd

theorem digitChar_inj :
    ∀ a : Nat, a < 10 → ∀ b : Nat, b < 10 → digitChar a = digitChar b → a = b := by
  decide

theorem map_digitChar_inj :
    ∀ l1 l2 : List Nat, (∀ d ∈ l1, d < 10) → (∀ d ∈ l2, d < 10) →
      l1.map digitChar = l2.map digitChar → l1 = l2 := by
  intro l1
  induction l1 with
  | nil => intro l2 _ _ h; cases l2 <;> simp_all
  | cons d1 r1 ih =>
    intro l2 h1 h2 h
    cases l2 with
    | nil => simp at h
    | cons d2 r2 =>
      simp only [List.map_cons, List.cons.injEq] at h
      have hd : d1 = d2 :=
        digitChar_inj d1 (h1 d1 (by simp)) d2 (h2 d2 (by simp)) h.1
      have hr : r1 = r2 :=
        ih r2 (fun d hd2 => h1 d (by simp [hd2])) (fun d hd2 => h2 d (by simp [hd2])) h.2
      rw [hd, hr]

theorem natRepr_ne_zero_str (n : Nat) (hn : n ≠ 0) : natRepr n ≠ "0" := by
  unfold natRepr
  simp only [hn, if_false]
  intro h
  have h2 : ((digits10 n).reverse.map digitChar) = ['0'] := congrArg String.data h
  have h3 : List.map digitChar (digits10 n) = List.map digitChar [0] := by
    have h4 := congrArg List.reverse h2
    simpa [digitChar] using h4
  have hdig : digits10 n = [0] :=
    map_digitChar_inj _ _
      (fun d hd => digitsAux_lt n n d hd)
      (by intro d hd; simp at hd; omega) h3
  have h5 := undigits_digits10 n
  rw [hdig] at h5
  simp [undigits] at h5
  omega

theorem natRepr_inj (m n : Nat) (h : natRepr m = natRepr n) : m = n := by
  by_cases hm : m = 0 <;> by_cases hn : n = 0
  · omega
  · exfalso
    subst hm
    exact natRepr_ne_zero_str n hn (by rw [← h]; rfl)
  · exfalso
    subst hn
    exact natRepr_ne_zero_str m hm (by rw [h]; rfl)
  · have hdata : List.map digitChar ((digits10 m).reverse)
        = List.map digitChar ((digits10 n).reverse) := by
      have h2 : natRepr m = String.mk ((digits10 m).reverse.map digitChar) := by
        unfold natRepr
        simp [hm]
      have h3 : natRepr n = String.mk ((digits10 n).reverse.map digitChar) := by
        unfold natRepr
        simp [hn]
      rw [h2, h3] at h
      exact congrArg String.data h
    have hrev : (digits10 m).reverse = (digits10 n).reverse :=
      map_digitChar_inj _ _
        (fun d hd => digitsAux_lt m m d (List.mem_reverse.mp hd))
        (fun d hd => digitsAux_lt n n d (List.mem_reverse.mp hd)) hdata
    have hdig : digits10 m = digits10 n := by
      have h4 := congrArg List.reverse hrev
      simpa using h4
    have h1 := undigits_digits10 m
    have h2 := undigits_digits10 n
    rw [hdig] at h1
    omega

theorem string_append_left_cancel (p x y : String) (h : p ++ x = p ++ y) : x = y := by
  apply String.ext
  have := congrArg String.data h
  rw [String.data_append, String.data_append] at this
  exact List.append_cancel_left this

theorem sessionIdOf_inj (m n : Nat) (h : sessionIdOf m = sessionIdOf n) : m = n :=
  natRepr_inj m n (string_append_left_cancel "sess_" _ _ h)

theorem startSession_cases (st : ServerState) (now : Nat) (req : StartRequest) :
    ((startSession st now req).1 = st ∧ (startSession st now req).2.1 = [] ∧
      ∃ msg, (startSession st now req).2.2 = StartResult.badRequest msg) ∨
    (∃ opts dur, req.options = some opts ∧ req.durationSeconds = some dur ∧
      2 ≤ opts.length ∧ 0 < dur ∧
      startSession st now req
        = ({ currentSession :=
               some { id := sessionIdOf now, options := opts,
                      endAt := (now : Int) + dur * 1000, active := true,
                      votes := [], tally := newTally opts,
                      timer := some st.nextTimer },
             armedTimers := st.armedTimers ++ [st.nextTimer],
             nextTimer := st.nextTimer + 1 },
           [Event.started (sessionIdOf now) opts ((now : Int) + dur * 1000)],
           StartResult.ok (sessionIdOf now) ((now : Int) + dur * 1000) opts)) := by
  obtain ⟨ropts, rdur⟩ := req
  cases ropts with
  | none => left; exact ⟨rfl, rfl, _, rfl⟩
  | some opts =>
    by_cases hlen : opts.length < 2
    · left
      refine ⟨?_, ?_, ?_⟩ <;> simp [startSession, hlen]
    · cases rdur with
      | none =>
        left
        refine ⟨?_, ?_, ?_⟩ <;> simp [startSession, hlen]
      | some dur =>
        by_cases hdur : dur ≤ 0
        · left
          refine ⟨?_, ?_, ?_⟩ <;> simp [startSession, hlen, hdur]
        · right
          refine ⟨opts, dur, rfl, rfl, by omega, by omega, ?_⟩
          simp [startSession, hlen, hdur]

theorem handleVote_cases (st : ServerState) (p : Packet) :
    ((handleVote st p).1 = st ∧ (handleVote st p).2.1 = []) ∨
    (∃ s d c, st.currentSession = some s ∧ s.active = true ∧
      hasK s.votes d = false ∧ c ∈ s.options ∧ d ≠ "" ∧
      p = Packet.msg ⟨some s.id, some d, some c⟩ ∧
      handleVote st p
        = ({ st with currentSession := some { s with
              votes := setK s.votes d c,
              tally := setK s.tally c ((getK s.tally c).getD 0 + 1) } },
           [Event.tallyUpdated s.id
              (setK s.tally c ((getK s.tally c).getD 0 + 1))
              (setK s.votes d c).length], 1)) := by
  cases p with
  | malformed => left; simp [handleVote]
  | msg m =>
    obtain ⟨msid, mdev, mch⟩ := m
    cases hc : st.currentSession with
    | none => left; simp [handleVote, hc]
    | some s =>
      by_cases ha : s.active = false
      · left; simp [handleVote, hc, ha]
      · by_cases hsid : msid = some s.id
        · cases mdev with
          | none => left; simp [handleVote, hc, ha, hsid]
          | some d =>
            by_cases hde : d = ""
            · left; simp [handleVote, hc, ha, hsid, hde]
            · cases mch with
              | none => left; simp [handleVote, hc, ha, hsid, hde]
              | some c =>
                by_cases hopt : c ∈ s.options
                · by_cases hdup : hasK s.votes d
                  · left; simp [handleVote, hc, ha, hsid, hde, hopt, hdup]
                  · right
                    refine ⟨s, d, c, rfl, by simpa using ha, by simpa using hdup,
                      hopt, hde, by rw [hsid], ?_⟩
                    simp [handleVote, hc, ha, hsid, hde, hopt, hdup]
                · left; simp [handleVote, hc, ha, hsid, hde, hopt]
        · left; simp [handleVote, hc, ha, hsid]

theorem endSession_cases (st : ServerState) (r : String) :
    (st.currentSession = none ∧ endSession st r = (st, [])) ∨
    (∃ s, st.currentSession = some s ∧
      (endSession st r).1.currentSession
        = some { s with active := false, timer := none } ∧
      (endSession st r).2 = [Event.ended s.id r s.tally]) := by
  cases hc : st.currentSession with
  | none => left; exact ⟨rfl, by simp [endSession, hc]⟩
  | some s =>
    right
    exact ⟨s, rfl, by simp [endSession, hc], by simp [endSession, hc]⟩

theorem sessInv_newTally (opts : List String) :
    SessInv { id := "", options := opts, endAt := 0, active := true,
              votes := [], tally := newTally opts, timer := none } := by
  refine ⟨nodup_keysOf_newTally opts, ?_, ?_⟩
  · intro o
    rw [getK_newTally]
    by_cases h : o ∈ opts <;> simp [h, countChoice]
  · simp [tallySum_newTally]

theorem sessInv_fields (s : Session)
    (hnd : (keysOf s.tally).Nodup)
    (hcnt : ∀ o, (getK s.tally o).getD 0 = countChoice s.votes o)
    (hsum : tallySum s.tally = s.votes.length) : SessInv s :=
  ⟨hnd, hcnt, hsum⟩

theorem sessInv_admit (s : Session) (d c : String)
    (hinv : SessInv s) (hdup : hasK s.votes d = false) :
    SessInv { s with votes := setK s.votes d c,
                     tally := setK s.tally c ((getK s.tally c).getD 0 + 1) } := by
  obtain ⟨hnd, hcnt, hsum⟩ := hinv
  have hvotes : setK s.votes d c = s.votes ++ [(d, c)] := setK_eq_append _ _ _ hdup
  refine ⟨nodup_keysOf_setK _ _ _ hnd, ?_, ?_⟩
  · intro o
    simp only [hvotes, countChoice_append_single]
    by_cases ho : o = c
    · subst ho
      rw [getK_setK_self]
      simp [hcnt o]
    · rw [getK_setK_ne _ _ _ _ ho]
      have hco : ¬c = o := fun hh => ho hh.symm
      simp [hcnt o, hco]
  · simp only [hvotes, tallySum_setK_incr s.tally c hnd, List.length_append]
    simp [hsum]

theorem sessInv_applyOp (st : ServerState) (op : Op)
    (h : ∀ s, st.currentSession = some s → SessInv s) :
    ∀ s, (applyOp st op).1.currentSession = some s → SessInv s := by
  cases op with
  | start now req =>
    rcases startSession_cases st now req with ⟨h1, _, _⟩ | ⟨opts, dur, _, _, _, _, heq⟩
    · intro s hs
      have hred : (applyOp st (Op.start now req)).1 = (startSession st now req).1 := rfl
      rw [hred, h1] at hs
      exact h s hs
    · intro s hs
      have hred : (applyOp st (Op.start now req)).1 = (startSession st now req).1 := rfl
      rw [hred, heq] at hs
      simp at hs
      have hbase := sessInv_newTally opts
      rw [← hs]
      exact ⟨hbase.1, hbase.2.1, hbase.2.2⟩
  | vote p =>
    rcases handleVote_cases st p with ⟨h1, _⟩ | ⟨s0, d, c, hc, hact, hdup, hopt, hde, hp, heq⟩
    · intro s hs
      have hred : (applyOp st (Op.vote p)).1 = (handleVote st p).1 := rfl
      rw [hred, h1] at hs
      exact h s hs
    · intro s hs
      have hred : (applyOp st (Op.vote p)).1 = (handleVote st p).1 := rfl
      rw [hred, heq] at hs
      simp at hs
      rw [← hs]
      exact sessInv_admit s0 d c (h s0 hc) hdup
  | endS r =>
    rcases endSession_cases st r with ⟨hc, heq⟩ | ⟨s0, hc, hcur, _⟩
    · intro s hs
      have hred : (applyOp st (Op.endS r)).1 = (endSession st r).1 := rfl
      rw [hred, heq] at hs
      exact h s hs
    · intro s hs
      have hred : (applyOp st (Op.endS r)).1 = (endSession st r).1 := rfl
      rw [hred, hcur] at hs
      simp at hs
      have hinv := h s0 hc
      rw [← hs]
      exact ⟨hinv.1, hinv.2.1, hinv.2.2⟩

theorem sessInv_run (ops : List Op) :
    ∀ st : ServerState, (∀ s, st.currentSession = some s → SessInv s) →
      ∀ s, (run st ops).1.currentSession = some s → SessInv s := by
  induction ops with
  | nil => intro st h s hs; exact h s hs
  | cons op rest ih =>
    intro st h s hs
    have hred : (run st (op :: rest)).1 = (run (applyOp st op).1 rest).1 := rfl
    rw [hred] at hs
    exact ih (applyOp st op).1 (sessInv_applyOp st op h) s hs

theorem okEvents_append (B : List String) (e1 e2 : List Event) :
    okEvents B (e1 ++ e2) = (okEvents B e1 && okEvents (burntAfter B e1) e2) := by
  induction e1 generalizing B with
  | nil => simp [okEvents, burntAfter]
  | cons e rest ih =>
    cases e with
    | started sid opts endAt => simp [okEvents, burntAfter, ih]
    | ended sid r t => simp [okEvents, burntAfter, ih]
    | tallyUpdated sid t n => simp [okEvents, burntAfter, ih, Bool.and_assoc]

theorem run_okEvents (ops : List Op) :
    ∀ (B : List String) (st : ServerState),
      (∀ s, st.currentSession = some s → s.active = true → s.id ∉ B) →
      (∀ now, now ∈ startTimes ops →
        sessionIdOf now ∉ B ∧
        ∀ s, st.currentSession = some s → sessionIdOf now ≠ s.id) →
      (startTimes ops).Pairwise (fun a b => a ≠ b) →
      okEvents B (run st ops).2 = true := by
  induction ops with
  | nil => intro B st _ _ _; rfl
  | cons op rest ih =>
    intro B st hB hfresh hpair
    have hred : (run st (op :: rest)).2
        = (applyOp st op).2 ++ (run (applyOp st op).1 rest).2 := rfl
    rw [hred, okEvents_append]
    cases op with
    | start now req =>
      have hst : startTimes (Op.start now req :: rest) = now :: startTimes rest := rfl
      rw [hst] at hfresh hpair
      rw [List.pairwise_cons] at hpair
      rcases startSession_cases st now req with ⟨h1, h2, _⟩ | ⟨opts, dur, _, _, _, _, heq⟩
      · have he : (applyOp st (Op.start now req)).2 = [] := h2
        have hs : (applyOp st (Op.start now req)).1 = st := h1
        rw [he, hs]
        simp only [okEvents, Bool.true_and, burntAfter]
        exact ih B st hB (fun n hn => hfresh n (List.mem_cons_of_mem _ hn)) hpair.2
      · have he : (applyOp st (Op.start now req)).2
            = [Event.started (sessionIdOf now) opts ((now : Int) + dur * 1000)] := by
          have : (applyOp st (Op.start now req)).2 = (startSession st now req).2.1 := rfl
          rw [this, heq]
        have hs : (applyOp st (Op.start now req)).1 = (startSession st now req).1 := rfl
        rw [he, hs, heq]
        simp only [okEvents, Bool.true_and, burntAfter]
        apply ih
        · intro s hs2 _
          simp at hs2
          rw [← hs2]
          exact (hfresh now (by simp)).1
        · intro n hn
          refine ⟨(hfresh n (List.mem_cons_of_mem _ hn)).1, ?_⟩
          intro s hs2
          simp at hs2
          rw [← hs2]
          intro hid
          have hid2 : sessionIdOf n = sessionIdOf now := hid
          exact hpair.1 n hn (sessionIdOf_inj n now hid2).symm
        · exact hpair.2
    | vote p =>
      have hst : startTimes (Op.vote p :: rest) = startTimes rest := rfl
      rw [hst] at hfresh hpair
      rcases handleVote_cases st p with ⟨h1, h2⟩ | ⟨s0, d, c, hc, hact, hdup, hopt, hde, hp, heq⟩
      · have he : (applyOp st (Op.vote p)).2 = [] := h2
        have hs : (applyOp st (Op.vote p)).1 = st := h1
        rw [he, hs]
        simp only [okEvents, Bool.true_and, burntAfter]
        exact ih B st hB hfresh hpair
      · have he : (applyOp st (Op.vote p)).2
            = [Event.tallyUpdated s0.id
                (setK s0.tally c ((getK s0.tally c).getD 0 + 1))
                (setK s0.votes d c).length] := by
          have : (applyOp st (Op.vote p)).2 = (handleVote st p).2.1 := rfl
          rw [this, heq]
        have hs : (applyOp st (Op.vote p)).1 = (handleVote st p).1 := rfl
        rw [he, hs, heq]
        have hnB : s0.id ∉ B := hB s0 hc hact
        simp only [okEvents, burntAfter]
        have hcont : B.contains s0.id = false := by
          by_contra hcc
          simp at hcc
          exact hnB hcc
        rw [hcont]
        simp only [Bool.not_false, Bool.and_true, Bool.true_and]
        apply ih
        · intro s hs2 hact2
          simp at hs2
          rw [← hs2]
          exact hnB
        · intro n hn
          refine ⟨(hfresh n hn).1, ?_⟩
          intro s hs2
          simp at hs2
          rw [← hs2]
          exact (hfresh n hn).2 s0 hc
        · exact hpair
    | endS r =>
      have hst : startTimes (Op.endS r :: rest) = startTimes rest := rfl
      rw [hst] at hfresh hpair
      rcases endSession_cases st r with ⟨hc, heq⟩ | ⟨s0, hc, hcur, hev⟩
      · have he : (applyOp st (Op.endS r)).2 = [] := by
          have : (applyOp st (Op.endS r)).2 = (endSession st r).2 := rfl
          rw [this, heq]
        have hs : (applyOp st (Op.endS r)).1 = st := by
          have : (applyOp st (Op.endS r)).1 = (endSession st r).1 := rfl
          rw [this, heq]
        rw [he, hs]
        simp only [okEvents, Bool.true_and, burntAfter]
        exact ih B st hB hfresh hpair
      · have he : (applyOp st (Op.endS r)).2 = [Event.ended s0.id r s0.tally] := hev
        rw [he]
        simp only [okEvents, Bool.true_and, burntAfter]
        apply ih
        · intro s hs2 hact2
          have : (applyOp st (Op.endS r)).1.currentSession
              = some { s0 with active := false, timer := none } := hcur
          rw [this] at hs2
          simp at hs2
          rw [← hs2] at hact2
          simp at hact2
        · intro n hn
          constructor
          · intro hmem
            rcases List.mem_cons.mp hmem with hmem | hmem
            · exact (hfresh n hn).2 s0 hc hmem
            · exact (hfresh n hn).1 hmem
          · intro s hs2
            have : (applyOp st (Op.endS r)).1.currentSession
                = some { s0 with active := false, timer := none } := hcur
            rw [this] at hs2
            simp at hs2
            rw [← hs2]
            exact (hfresh n hn).2 s0 hc
        · exact hpair

theorem vote_reject_noop (st : ServerState) (m : VoteMsg) (hrej : VoteReject st m) :
    (handleVote st (Packet.msg m)).1 = st ∧ (handleVote st (Packet.msg m)).2.1 = [] := by
  rcases handleVote_cases st (Packet.msg m) with ⟨h1, h2⟩ |
    ⟨s0, d, c, hc, hact, hdup, hopt, hde, hp, heq⟩
  · exact ⟨h1, h2⟩
  · exfalso
    injection hp with hm
    rcases hrej with h | ⟨s, hs, hcase⟩
    · rw [h] at hc
      exact Option.noConfusion hc
    · rw [hs] at hc
      injection hc with hc
      subst hc
      rcases hcase with h | h | h | h
      · rw [hact] at h
        exact Bool.noConfusion h
      · rw [hm] at h
        simp at h
      · rw [hm] at h
        simp at h
      · have := h c (by rw [hm])
        exact this hopt

theorem handleVote_ack (st : ServerState) (p : Packet) :
    (handleVote st p).2.2 = 1 ∨
    ((handleVote st p).2.2 = 2 ∧ (handleVote st p).1 = st ∧
      (handleVote st p).2.1 = []) := by
  cases p with
  | malformed => left; rfl
  | msg m =>
    obtain ⟨msid, mdev, mch⟩ := m
    cases hc : st.currentSession with
    | none => right; simp [handleVote, hc]
    | some s =>
      by_cases ha : s.active = false
      · right; simp [handleVote, hc, ha]
      · by_cases hsid : msid = some s.id
        · cases mdev with
          | none => right; simp [handleVote, hc, ha, hsid]
          | some d =>
            by_cases hde : d = ""
            · right; simp [handleVote, hc, ha, hsid, hde]
            · cases mch with
              | none => right; simp [handleVote, hc, ha, hsid, hde]
              | some c =>
                by_cases hopt : c ∈ s.options
                · by_cases hdup : hasK s.votes d
                  · left; simp [handleVote, hc, ha, hsid, hde, hopt, hdup]
                  · left; simp [handleVote, hc, ha, hsid, hde, hopt, hdup]
                · right; simp [handleVote, hc, ha, hsid, hde, hopt]
        · right; simp [handleVote, hc, ha, hsid]

theorem startSession_ok_id (st : ServerState) (now : Nat) (req : StartRequest)
    (sid : String) (e : Int) (o : List String)
    (h : (startSession st now req).2.2 = StartResult.ok sid e o) :
    sid = sessionIdOf now := by
  rcases startSession_cases st now req with ⟨_, _, msg, hbad⟩ |
    ⟨opts, dur, _, _, _, _, heq⟩
  · rw [hbad] at h
    exact StartResult.noConfusion h
  · rw [heq] at h
    simp at h
    exact h.1.symm

/-- C1: for every reachable server state (any sequence of start, vote and
end operations from the initial state) whose current-session slot is
occupied, the tally is derivable from the vote ledger by counting: every
option label's tally count equals the number of ledger entries recording
that label, and the tally counts sum to the ledger size. -/
theorem tally_derivable_from_ledger (ops : List Op) (s : Session)
    (h : (run initState ops).1.currentSession = some s) :
    (∀ o, (getK s.tally o).getD 0 = countChoice s.votes o) ∧
    tallySum s.tally = s.votes.length := by
  have hinit : ∀ s2 : Session, initState.currentSession = some s2 → SessInv s2 := by
    intro s2 hs2
    exact Option.noConfusion hs2
  have hinv := sessInv_run ops initState hinit s h
  exact ⟨hinv.2.1, hinv.2.2⟩

/-- Witness for C1 at the run consisting of one session start followed by
one admitted vote. -/
theorem tally_derivable_from_ledger_witness :
    (getK ([("A", 1), ("B", 0)] : Tally) "A").getD 0
      = countChoice [("dev1", "A")] "A" ∧
    tallySum ([("A", 1), ("B", 0)] : Tally) = ([("dev1", "A")] : Votes).length := by
  have h := tally_derivable_from_ledger
    [Op.start 0 ⟨some ["A", "B"], some 1⟩,
     Op.vote (Packet.msg ⟨some "sess_0", some "dev1", some "A"⟩)]
    { id := "sess_0", options := ["A", "B"], endAt := 1000, active := true,
      votes := [("dev1", "A")], tally := [("A", 1), ("B", 0)], timer := some 0 }
    (by decide)
  exact ⟨h.1 "A", h.2⟩

/-- C2 counterexample: starting a session and then calling `endSession`
twice in a row publishes the `ended` lifecycle event twice, not once —
`endSession` in `src/server.js` guards only on session existence and never
checks the `active` flag before publishing. -/
theorem endSession_twice_two_events_cex :
    ((run initState [Op.start 5 ⟨some ["A", "B"], some 1⟩,
        Op.endS "manual", Op.endS "manual"]).2.filter isEnded).length = 2 := by
  rfl

/-- C2 amended: for every state with a current session, each of two
successive `EndSession` calls publishes one `ended` event (two in total);
the call is a no-op only when no current session exists, since the code
has no active-flag guard. -/
theorem endSession_emits_per_call (st : ServerState) (s : Session) (r1 r2 : String)
    (h : st.currentSession = some s) :
    (endSession st r1).2 = [Event.ended s.id r1 s.tally] ∧
    (endSession (endSession st r1).1 r2).2 = [Event.ended s.id r2 s.tally] := by
  rcases endSession_cases st r1 with ⟨hc, _⟩ | ⟨s0, hc, hcur, hev⟩
  · rw [h] at hc
    exact Option.noConfusion hc
  · rw [h] at hc
    injection hc with hc
    subst hc
    refine ⟨hev, ?_⟩
    rcases endSession_cases (endSession st r1).1 r2 with ⟨hc2, _⟩ | ⟨s1, hc2, hcur2, hev2⟩
    · rw [hcur] at hc2
      exact Option.noConfusion hc2
    · rw [hcur] at hc2
      injection hc2 with hc2
      rw [hev2, ← hc2]

/-- Witness for C2's amended statement at a concrete state with an active
session. -/
theorem endSession_emits_per_call_witness :
    (endSession sampleState "manual").2
      = [Event.ended "sess_5" "manual" [("A", 0), ("B", 0)]] ∧
    (endSession (endSession sampleState "manual").1 "shutdown").2
      = [Event.ended "sess_5" "shutdown" [("A", 0), ("B", 0)]] := by
  have h := endSession_emits_per_call sampleState sampleSession "manual" "shutdown" rfl
  exact h

/-- C3 counterexample: with the millisecond clock repeating a value, a
restarted session reuses the id of the ended one, so a `tallyUpdated`
event for id `sess_5` is published after the `ended` event for the same
id, violating the unconditional ordering clause of the claim. -/
theorem tally_after_ended_cex :
    okEvents [] (run initState
      [Op.start 5 ⟨some ["A", "B"], some 1⟩, Op.endS "manual",
       Op.start 5 ⟨some ["A", "B"], some 1⟩,
       Op.vote (Packet.msg ⟨some "sess_5", some "dev1", some "A"⟩)]).2 = false ∧
    (run initState
      [Op.start 5 ⟨some ["A", "B"], some 1⟩, Op.endS "manual",
       Op.start 5 ⟨some ["A", "B"], some 1⟩,
       Op.vote (Packet.msg ⟨some "sess_5", some "dev1", some "A"⟩)]).2.get? 1
      = some (Event.ended "sess_5" "manual" [("A", 0), ("B", 0)]) ∧
    (run initState
      [Op.start 5 ⟨some ["A", "B"], some 1⟩, Op.endS "manual",
       Op.start 5 ⟨some ["A", "B"], some 1⟩,
       Op.vote (Packet.msg ⟨some "sess_5", some "dev1", some "A"⟩)]).2.get? 3
      = some (Event.tallyUpdated "sess_5" [("A", 1), ("B", 0)] 1) := by
  refine ⟨rfl, rfl, rfl⟩

/-- C3 amended: a vote message meeting any of the spec's silent-rejection
conditions (no current session, inactive session, session-id mismatch,
missing or non-string device id, choice not among the options) leaves the
state unchanged and publishes nothing; and — provided the start operations
of the run observe pairwise distinct `Date.now()` values, so session ids
are unique — no `tallyUpdated` event is ever published after the `ended`
event for the same session id. -/
theorem vote_noop_and_no_tally_after_ended
    (st : ServerState) (m : VoteMsg) (ops : List Op)
    (hrej : VoteReject st m)
    (hdist : (startTimes ops).Pairwise (fun a b => a ≠ b)) :
    (handleVote st (Packet.msg m)).1 = st ∧
    (handleVote st (Packet.msg m)).2.1 = [] ∧
    okEvents [] (run initState ops).2 = true := by
  obtain ⟨h1, h2⟩ := vote_reject_noop st m hrej
  refine ⟨h1, h2, ?_⟩
  apply run_okEvents ops [] initState
  · intro s hs _
    exact Option.noConfusion hs
  · intro now _
    refine ⟨by simp, ?_⟩
    intro s hs
    exact Option.noConfusion hs
  · exact hdist

/-- Witness for C3's amended statement: a vote with a stale session id
against the empty state, and a single-start run. -/
theorem vote_noop_and_no_tally_after_ended_witness :
    (handleVote initState (Packet.msg ⟨some "x", some "d", some "A"⟩)).1 = initState ∧
    (handleVote initState (Packet.msg ⟨some "x", some "d", some "A"⟩)).2.1 = [] ∧
    okEvents [] (run initState [Op.start 3 ⟨some ["A", "B"], some 1⟩]).2 = true :=
  vote_noop_and_no_tally_after_ended initState ⟨some "x", some "d", some "A"⟩
    [Op.start 3 ⟨some ["A", "B"], some 1⟩] (Or.inl rfl) (by simp [startTimes])

/-- C4: against an active session, a further vote from a participant whose
device id is already in the ledger leaves the server state unchanged (so
ledger and tally equal their values after the first vote alone) and
publishes no event, whatever valid choice the duplicate vote carries. -/
theorem duplicate_vote_noop (st : ServerState) (s : Session) (d c : String)
    (hcur : st.currentSession = some s) (hact : s.active = true)
    (hdup : hasK s.votes d = true) (hc : c ∈ s.options) :
    (handleVote st (Packet.msg ⟨some s.id, some d, some c⟩)).1 = st ∧
    (handleVote st (Packet.msg ⟨some s.id, some d, some c⟩)).2.1 = [] := by
  rcases handleVote_cases st (Packet.msg ⟨some s.id, some d, some c⟩) with ⟨h1, h2⟩ |
    ⟨s0, d0, c0, hc0, hact0, hdup0, hopt0, hde0, hp0, heq0⟩
  · exact ⟨h1, h2⟩
  · exfalso
    injection hp0 with hm
    rw [hcur] at hc0
    injection hc0 with hc0
    subst hc0
    simp at hm
    rw [← hm.1] at hdup0
    rw [hdup] at hdup0
    exact Bool.noConfusion hdup0

/-- Witness for C4 at a concrete state whose ledger already holds a vote
from `dev1`, resubmitting with a different valid choice. -/
theorem duplicate_vote_noop_witness :
    (handleVote sampleVotedState
      (Packet.msg ⟨some "sess_5", some "dev1", some "B"⟩)).1 = sampleVotedState ∧
    (handleVote sampleVotedState
      (Packet.msg ⟨some "sess_5", some "dev1", some "B"⟩)).2.1 = [] := by
  have h := duplicate_vote_noop sampleVotedState sampleVotedSession "dev1" "B"
    rfl rfl rfl (by decide)
  exact h

/-- C5: for at least 2 distinct string options and a positive finite
duration, starting a session and immediately reading the status returns
the active flag true, the same options, and a tally whose keys are exactly
the given options in order, each mapped to 0. -/
theorem start_then_status (st : ServerState) (now : Nat) (opts : List String) (dur : Int)
    (hnd : opts.Nodup) (hlen : 2 ≤ opts.length) (hdur : 0 < dur) :
    getStatus (startSession st now ⟨some opts, some dur⟩).1
      = StatusResult.info (sessionIdOf now) opts ((now : Int) + dur * 1000) true
          (opts.map (fun o => (o, 0))) := by
  have h1 : ¬ opts.length < 2 := by omega
  have h2 : ¬ dur ≤ 0 := by omega
  simp [startSession, getStatus, h1, h2, newTally_of_nodup opts hnd]

/-- Witness for C5 at two options and a five-second duration. -/
theorem start_then_status_witness :
    getStatus (startSession initState 7 ⟨some ["A", "B"], some 5⟩).1
      = StatusResult.info "sess_7" ["A", "B"] 5007 true [("A", 0), ("B", 0)] := by
  have h := start_then_status initState 7 ["A", "B"] 5 (by decide) (by decide) (by decide)
  rw [h]
  rfl

/-- C6: a start request with fewer than 2 options (or a non-array) is
rejected with the invalid-options error, and one with at least 2 options
but a non-finite or non-positive duration is rejected with the
invalid-duration error; in both cases the state is returned unchanged and
no event is published. -/
theorem start_validation_failures (st : ServerState) (now : Nat) (req : StartRequest) :
    ((req.options = none ∨ ∃ opts, req.options = some opts ∧ opts.length < 2) →
      startSession st now req
        = (st, [], StartResult.badRequest
            "options must be an array with at least 2 entries")) ∧
    ((∃ opts, req.options = some opts ∧ 2 ≤ opts.length ∧
        (req.durationSeconds = none ∨ ∃ d, req.durationSeconds = some d ∧ d ≤ 0)) →
      startSession st now req
        = (st, [], StartResult.badRequest
            "durationSeconds must be a positive number")) := by
  constructor
  · rintro (h | ⟨opts, h1, h2⟩)
    · simp [startSession, h]
    · simp [startSession, h1, h2]
  · rintro ⟨opts, h1, hlen, (h | ⟨dv, hd1, hd2⟩)⟩
    · have h3 : ¬ opts.length < 2 := by omega
      simp [startSession, h1, h3, h]
    · have h3 : ¬ opts.length < 2 := by omega
      simp [startSession, h1, h3, hd1, hd2]

/-- Witness for C6: a one-option request and a zero-duration request, both
against the empty state. -/
theorem start_validation_failures_witness :
    startSession initState 0 ⟨some ["A"], some 5⟩
      = (initState, [], StartResult.badRequest
          "options must be an array with at least 2 entries") ∧
    startSession initState 0 ⟨some ["A", "B"], some 0⟩
      = (initState, [], StartResult.badRequest
          "durationSeconds must be a positive number") :=
  ⟨(start_validation_failures initState 0 ⟨some ["A"], some 5⟩).1
      (Or.inr ⟨["A"], rfl, by decide⟩),
   (start_validation_failures initState 0 ⟨some ["A", "B"], some 0⟩).2
      ⟨["A", "B"], rfl, by decide, Or.inr ⟨0, rfl, by decide⟩⟩⟩

/-- C7 counterexample: a syntactically fine vote message that a guard
rejects (here: no current session) runs the completion callback twice —
once by the `return cb()` in the guard and once more in the `finally`
block — not exactly once as claimed. -/
theorem vote_ack_twice_cex :
    (handleVote initState
      (Packet.msg ⟨some "sess_0", some "dev1", some "A"⟩)).2.2 = 2 := rfl

/-- C7 amended: the handler is total (never throws) and acknowledges every
message at least once and at most twice: exactly once for malformed
payloads and for the fall-through paths (admitted vote, suppressed
duplicate), twice exactly on the guard-rejection paths, which change no
state and publish nothing. -/
theorem vote_ack_bounds (st : ServerState) (p : Packet) :
    ((handleVote st p).2.2 = 1 ∨ (handleVote st p).2.2 = 2) ∧
    (p = Packet.malformed → (handleVote st p).2.2 = 1) ∧
    ((handleVote st p).2.2 = 2 →
      (handleVote st p).1 = st ∧ (handleVote st p).2.1 = []) := by
  rcases handleVote_ack st p with h | ⟨h1, h2, h3⟩
  · refine ⟨Or.inl h, fun _ => h, ?_⟩
    intro h2
    rw [h] at h2
    exact absurd h2 (by decide)
  · refine ⟨Or.inr h1, ?_, fun _ => ⟨h2, h3⟩⟩
    intro hp
    subst hp
    have : (handleVote st Packet.malformed).2.2 = 1 := rfl
    rw [this] at h1
    exact absurd h1 (by decide)

/-- Witness for C7's amended statement: a malformed payload acknowledges
exactly once. -/
theorem vote_ack_bounds_witness :
    (handleVote initState Packet.malformed).2.2 = 1 :=
  (vote_ack_bounds initState Packet.malformed).2.1 rfl

/-- C8: starting a valid new session while the current one is active and
holds an armed timer does not cancel that timer — the old handle is still
armed afterwards — while the current-session slot now holds the freshly
built session. -/
theorem old_timer_stays_armed (st : ServerState) (s : Session) (tm : Nat)
    (now : Nat) (opts : List String) (dur : Int)
    (hcur : st.currentSession = some s) (hact : s.active = true)
    (htm : s.timer = some tm) (harm : tm ∈ st.armedTimers)
    (hlen : 2 ≤ opts.length) (hdur : 0 < dur) :
    tm ∈ (startSession st now ⟨some opts, some dur⟩).1.armedTimers ∧
    (startSession st now ⟨some opts, some dur⟩).1.currentSession
      = some { id := sessionIdOf now, options := opts,
               endAt := (now : Int) + dur * 1000, active := true,
               votes := [], tally := newTally opts,
               timer := some st.nextTimer } := by
  have h1 : ¬ opts.length < 2 := by omega
  have h2 : ¬ dur ≤ 0 := by omega
  constructor
  · simp [startSession, h1, h2]
    exact Or.inl harm
  · simp [startSession, h1, h2]

/-- Witness for C8 at a concrete state whose session holds armed timer 0. -/
theorem old_timer_stays_armed_witness :
    0 ∈ (startSession sampleState 9 ⟨some ["X", "Y"], some 2⟩).1.armedTimers ∧
    (startSession sampleState 9 ⟨some ["X", "Y"], some 2⟩).1.currentSession
      = some { id := "sess_9", options := ["X", "Y"], endAt := 2009,
               active := true, votes := [], tally := [("X", 0), ("Y", 0)],
               timer := some 1 } := by
  have h := old_timer_stays_armed sampleState sampleSession 0 9 ["X", "Y"] 2
    rfl rfl rfl (by decide) (by decide) (by decide)
  exact h

/-- C9 counterexample: two successful start calls that both observe
`Date.now() = 5` (two requests within the same millisecond) are assigned
the same session id `sess_5`, so ids are not always distinct. -/
theorem session_id_collision_cex :
    (startSession initState 5 ⟨some ["A", "B"], some 1⟩).2.2
      = StartResult.ok "sess_5" 1005 ["A", "B"] ∧
    (startSession (startSession initState 5 ⟨some ["A", "B"], some 1⟩).1 5
        ⟨some ["A", "B"], some 1⟩).2.2
      = StartResult.ok "sess_5" 1005 ["A", "B"] := by
  exact ⟨rfl, rfl⟩

/-- C9 amended: two successful start calls that observe distinct
`Date.now()` values are assigned distinct session ids (the id, fixed at
creation, encodes the creation timestamp injectively). -/
theorem session_ids_distinct_of_distinct_times
    (st1 st2 : ServerState) (now1 now2 : Nat) (req1 req2 : StartRequest)
    (id1 id2 : String) (e1 e2 : Int) (o1 o2 : List String)
    (h1 : (startSession st1 now1 req1).2.2 = StartResult.ok id1 e1 o1)
    (h2 : (startSession st2 now2 req2).2.2 = StartResult.ok id2 e2 o2)
    (hne : now1 ≠ now2) : id1 ≠ id2 := by
  rw [startSession_ok_id st1 now1 req1 id1 e1 o1 h1,
      startSession_ok_id st2 now2 req2 id2 e2 o2 h2]
  intro h
  exact hne (sessionIdOf_inj now1 now2 h)

/-- Witness for C9's amended statement at timestamps 1 and 2. -/
theorem session_ids_distinct_witness : ("sess_1" : String) ≠ "sess_2" :=
  session_ids_distinct_of_distinct_times initState initState 1 2
    ⟨some ["A", "B"], some 1⟩ ⟨some ["A", "B"], some 1⟩
    "sess_1" "sess_2" 1001 1002 ["A", "B"] ["A", "B"] (by decide) (by decide)
    (by decide)

/-- C10: ending a session mutates only its active flag and timer handle —
id, options, expiry, ledger and tally are untouched — and the `ended`
event carries exactly the tally held at the instant of closure. -/
theorem endSession_frame (st : ServerState) (s : Session) (r : String)
    (h : st.currentSession = some s) :
    (endSession st r).1.currentSession
      = some { s with active := false, timer := none } ∧
    (endSession st r).2 = [Event.ended s.id r s.tally] := by
  simp [endSession, h]

/-- Witness for C10 at a concrete state with an active session. -/
theorem endSession_frame_witness :
    (endSession sampleState "time_up").1.currentSession
      = some { sampleSession with active := false, timer := none } ∧
    (endSession sampleState "time_up").2
      = [Event.ended "sess_5" "time_up" [("A", 0), ("B", 0)]] := by
  have h := endSession_frame sampleState sampleSession "time_up" rfl
  exact h

end Voting
